import Mathlib

/-!
Verification of `pesa_min_y_clase.py`.

Shallow embedding: Python floats are idealized as real numbers, Python
dicts as association lists, `Optional[float]` as `Option ℝ`, and the one
implicit failure point (`ZeroDivisionError` on float division by zero) as
`Except`.  Every definition follows the corresponding Python function of
the source file line by line.
-/

open Classical

namespace Pesas

/-- A table row: the per-class MPE values (mg) of one nominal mass, as in the
inner dicts of `MPE_TABLE_EXAMPLE_MG` (a missing class is simply absent). -/
abbrev Row := List (String × ℝ)

/-- An OIML MPE table: nominal mass (g) paired with its row, as in the Python
dict `Dict[float, Dict[str, float]]`. -/
abbrev Table := List (ℝ × Row)

noncomputable section

/-- Python dict lookup `tabla[mass_g]` / membership `mass_g in tabla`
(keys of a dict are unique, so first match is the match). -/
def tableLookup : Table → ℝ → Option Row
  | [], _ => none
  | (m, row) :: rest, q => if m = q then some row else tableLookup rest q

/-- Python dict lookup `row.get(clase)` / membership `clase in row`. -/
def rowLookup : Row → String → Option ℝ
  | [], _ => none
  | (c, v) :: rest, clase => if c = clase then some v else rowLookup rest clase

/-- The composite `tabla[x].get(clase)` guarded by key membership: `some v`
iff `x` is a key of `tabla` and `clase` is present in its row (lines 90 and
100 of the source both perform exactly this access). -/
def lookupExact (tabla : Table) (mass_g : ℝ) (clase : String) : Option ℝ :=
  (tableLookup tabla mass_g).bind fun row => rowLookup row clase

/-- `sorted(tabla.keys())` (line 92). -/
def sortedKeys (tabla : Table) : List ℝ :=
  List.insertionSort (· ≤ ·) (tabla.map Prod.fst)

/-- `bisect.bisect_left(xs, mass_g)` (line 96): for a sorted list this is the
number of elements strictly below the query. -/
def bisectLeft (xs : List ℝ) (q : ℝ) : ℕ :=
  xs.countP fun y => decide (y < q)

/-- Lines 100-104 of `mpe_mg_para`: fetch `y0`, `y1` with `.get` and, when both
are present, return the log-log interpolant `10 ** (log10 y0 + t * (log10 y1 -
log10 y0))` with `t = (log10 mass - log10 x0) / (log10 x1 - log10 x0)`. -/
def interpolado (tabla : Table) (mass_g x0 x1 : ℝ) (clase : String) : Option ℝ :=
  match lookupExact tabla x0 clase, lookupExact tabla x1 clase with
  | some y0, some y1 =>
      some ((10 : ℝ) ^ (Real.logb 10 y0 +
        (Real.logb 10 mass_g - Real.logb 10 x0) / (Real.logb 10 x1 - Real.logb 10 x0) *
          (Real.logb 10 y1 - Real.logb 10 y0)))
  | _, _ => none

/-- Lines 92-104 of `mpe_mg_para`, the fall-through after the exact-match test:
`xs = sorted(tabla.keys())`; empty or out-of-range gives `None`
(`xs.head? = some lo` plays `xs[0]`, `xs.getLast? = some hi` plays `xs[-1]`,
and an empty `xs` falls to the catch-all arm exactly as `if not xs` does);
`i = bisect_left(xs, mass)`; `i == 0 or i == len(xs)` gives `None`; otherwise
interpolate between `xs[i-1]` and `xs[i]`. -/
def mpeInterpBranch (mass_g : ℝ) (clase : String) (tabla : Table) : Option ℝ :=
  let xs := sortedKeys tabla
  match xs.head?, xs.getLast? with
  | some lo, some hi =>
      if mass_g < lo ∨ hi < mass_g then none
      else
        let i := bisectLeft xs mass_g
        if i = 0 ∨ i = xs.length then none
        else interpolado tabla mass_g (xs.getD (i - 1) 0) (xs.getD i 0) clase
  | _, _ => none

/-- `mpe_mg_para(mass_g, clase, tabla)` (lines 89-104): exact hit returns the
stored value, otherwise the interpolation branch runs. -/
def mpe_mg_para (mass_g : ℝ) (clase : String) (tabla : Table) : Option ℝ :=
  match lookupExact tabla mass_g clase with
  | some v => some v
  | none => mpeInterpBranch mass_g clase tabla

/-- `s_efectiva(s, d, incluir_resolucion)` (lines 66-69). -/
def s_efectiva (s : ℝ) (d : Option ℝ) (incluir_resolucion : Bool := true) : ℝ :=
  match incluir_resolucion, d with
  | true, some dv => Real.sqrt (s ^ 2 + (dv / Real.sqrt 12) ^ 2)
  | _, _ => s

/-- `masa_minima(s, d, r_rel, k, incluir_resolucion)` (lines 71-74): the body
is the bare quotient `(k * s_eff) / r_rel`; Python float division raises
`ZeroDivisionError` when the divisor is zero, modelled as `Except.error`. -/
def masa_minima (s : ℝ) (d : Option ℝ) (r_rel : ℝ := 0.001) (k : ℝ := 2)
    (incluir_resolucion : Bool := true) : Except String ℝ :=
  if r_rel = 0 then Except.error "ZeroDivisionError"
  else Except.ok ((k * s_efectiva s d incluir_resolucion) / r_rel)

/-- `MPE_TABLE_EXAMPLE_MG` (lines 47-63), the built-in demo table; class E1 has
no value in any row, exactly as in the source. -/
def MPE_TABLE_EXAMPLE_MG : Table := [
  (1,     [("E2", 1),   ("F1", 3),   ("F2", 10),   ("M1", 50),    ("M2", 150),   ("M3", 500)]),
  (2,     [("E2", 1.2), ("F1", 3.5), ("F2", 12),   ("M1", 60),    ("M2", 180),   ("M3", 600)]),
  (5,     [("E2", 1.5), ("F1", 4),   ("F2", 15),   ("M1", 75),    ("M2", 225),   ("M3", 750)]),
  (10,    [("E2", 2),   ("F1", 5),   ("F2", 20),   ("M1", 100),   ("M2", 300),   ("M3", 1000)]),
  (20,    [("E2", 3),   ("F1", 8),   ("F2", 30),   ("M1", 150),   ("M2", 450),   ("M3", 1500)]),
  (50,    [("E2", 5),   ("F1", 12),  ("F2", 50),   ("M1", 250),   ("M2", 750),   ("M3", 2500)]),
  (100,   [("E2", 8),   ("F1", 20),  ("F2", 80),   ("M1", 400),   ("M2", 1200),  ("M3", 4000)]),
  (200,   [("E2", 12),  ("F1", 30),  ("F2", 120),  ("M1", 600),   ("M2", 1800),  ("M3", 6000)]),
  (500,   [("E2", 20),  ("F1", 50),  ("F2", 200),  ("M1", 1000),  ("M2", 3000),  ("M3", 10000)]),
  (1000,  [("E2", 30),  ("F1", 80),  ("F2", 300),  ("M1", 1500),  ("M2", 4500),  ("M3", 15000)]),
  (2000,  [("E2", 50),  ("F1", 120), ("F2", 500),  ("M1", 2500),  ("M2", 7500),  ("M3", 25000)]),
  (5000,  [("E2", 80),  ("F1", 200), ("F2", 800),  ("M1", 4000),  ("M2", 12000), ("M3", 40000)]),
  (10000, [("E2", 120), ("F1", 300), ("F2", 1200), ("M1", 6000),  ("M2", 18000), ("M3", 60000)]),
  (20000, [("E2", 200), ("F1", 500), ("F2", 2000), ("M1", 10000), ("M2", 30000), ("M3", 100000)]),
  (50000, [("E2", 300), ("F1", 800), ("F2", 3000), ("M1", 15000), ("M2", 45000), ("M3", 150000)])]

/-- `CLASSES_ORDER` (line 64), loosest-to-tightest scan order. -/
def CLASSES_ORDER : List String := ["E2", "F1", "F2", "M1", "M2", "M3"]

/-- `tabla_mpe_mg or MPE_TABLE_EXAMPLE_MG` (line 111): Python truthiness makes
both `None` and the empty dict fall back to the demo table. -/
def tablaEfectiva : Option Table → Table
  | some t => if t = [] then MPE_TABLE_EXAMPLE_MG else t
  | none => MPE_TABLE_EXAMPLE_MG

/-- The `for clase in clases_orden` loop of `seleccionar_clase_pesa`
(lines 114-125): skip classes whose MPE is unavailable; with an MPE threshold
test `mpe_mg <= umbral_mpe_mg`, otherwise test
`mpe_mg / 1000 / sqrt(3) <= umbral_std_g`; return the first hit, else `None`.
(The guard in `seleccionar_clase_pesa` ensures the loop never runs with both
thresholds absent; that unreachable state is mapped to `none`.) -/
def scanClases (mass_g : ℝ) (umbral_std_g umbral_mpe_mg : Option ℝ) (tabla : Table) :
    List String → Option String
  | [] => none
  | clase :: rest =>
    match mpe_mg_para mass_g clase tabla with
    | none => scanClases mass_g umbral_std_g umbral_mpe_mg tabla rest
    | some mpe_mg =>
      match umbral_mpe_mg with
      | some u =>
          if mpe_mg ≤ u then some clase
          else scanClases mass_g umbral_std_g umbral_mpe_mg tabla rest
      | none =>
        match umbral_std_g with
        | some u =>
            if mpe_mg / 1000 / Real.sqrt 3 ≤ u then some clase
            else scanClases mass_g umbral_std_g umbral_mpe_mg tabla rest
        | none => none

/-- `seleccionar_clase_pesa` (lines 106-125): resolve the effective table,
raise `ValueError` when both thresholds are absent, otherwise scan the class
order. -/
def seleccionar_clase_pesa (mass_g : ℝ)
    (umbral_std_g : Option ℝ := none) (umbral_mpe_mg : Option ℝ := none)
    (tabla_mpe_mg : Option Table := none)
    (clases_orden : List String := CLASSES_ORDER) : Except String (Option String) :=
  let tabla := tablaEfectiva tabla_mpe_mg
  if umbral_mpe_mg = none ∧ umbral_std_g = none then
    Except.error "Proporciona umbral_std_g (g) o umbral_mpe_mg (mg)."
  else
    Except.ok (scanClases mass_g umbral_std_g umbral_mpe_mg tabla clases_orden)

/-- True exactly on the raising outcomes of an embedded Python call. -/
def esError {α : Type} : Except String α → Bool
  | .error _ => true
  | .ok _ => false

/-- Value of a non-raising embedded call (0 on the raising ones). -/
def valorOk : Except String ℝ → ℝ
  | .ok v => v
  | .error _ => 0

/-- The qualification test applied by the loop of `seleccionar_clase_pesa` to
an available MPE value, with the code's precedence: an MPE threshold is used
when present, else the standard-uncertainty threshold. -/
def cumpleUmbral (umbral_std_g umbral_mpe_mg : Option ℝ) (mpe_mg : ℝ) : Prop :=
  match umbral_mpe_mg with
  | some u => mpe_mg ≤ u
  | none =>
    match umbral_std_g with
    | some u => mpe_mg / 1000 / Real.sqrt 3 ≤ u
    | none => False

end

/-! ### Basic facts about the embedded lookups -/

theorem tableLookup_eq_none (tabla : Table) (q : ℝ) (h : q ∉ tabla.map Prod.fst) :
    tableLookup tabla q = none := by
  induction tabla with
  | nil => rfl
  | cons p rest ih =>
    obtain ⟨m, row⟩ := p
    simp only [List.map_cons, List.mem_cons] at h
    push_neg at h
    simp only [tableLookup]
    rw [if_neg fun hm => h.1 hm.symm]
    exact ih h.2

theorem mem_keys_of_tableLookup (tabla : Table) (q : ℝ) (row : Row)
    (h : tableLookup tabla q = some row) : q ∈ tabla.map Prod.fst := by
  by_contra hq
  rw [tableLookup_eq_none tabla q hq] at h
  exact Option.noConfusion h

theorem tableLookup_isSome_of_mem (tabla : Table) (q : ℝ) (h : q ∈ tabla.map Prod.fst) :
    ∃ row, tableLookup tabla q = some row := by
  induction tabla with
  | nil => simp at h
  | cons p rest ih =>
    obtain ⟨m, row⟩ := p
    simp only [List.map_cons, List.mem_cons] at h
    by_cases hm : m = q
    · exact ⟨row, by simp [tableLookup, hm]⟩
    · obtain h | h := h
      · exact absurd h.symm hm
      · obtain ⟨r, hr⟩ := ih h
        exact ⟨r, by simp [tableLookup, hm, hr]⟩

theorem row_mem_of_tableLookup (tabla : Table) (q : ℝ) (row : Row)
    (h : tableLookup tabla q = some row) : ∃ m, (m, row) ∈ tabla := by
  induction tabla with
  | nil => simp [tableLookup] at h
  | cons p rest ih =>
    obtain ⟨m, r⟩ := p
    simp only [tableLookup] at h
    by_cases hm : m = q
    · rw [if_pos hm] at h
      injection h with h
      subst h
      exact ⟨m, List.mem_cons_self _ _⟩
    · rw [if_neg hm] at h
      obtain ⟨m2, hm2⟩ := ih h
      exact ⟨m2, List.mem_cons_of_mem _ hm2⟩

theorem sortedKeys_sorted (tabla : Table) : (sortedKeys tabla).Sorted (· ≤ ·) :=
  List.sorted_insertionSort _ _

theorem sortedKeys_perm (tabla : Table) : List.Perm (sortedKeys tabla) (tabla.map Prod.fst) :=
  List.perm_insertionSort _ _

theorem mem_sortedKeys (tabla : Table) (q : ℝ) :
    q ∈ sortedKeys tabla ↔ q ∈ tabla.map Prod.fst :=
  (sortedKeys_perm tabla).mem_iff

theorem sorted_head_le {l : List ℝ} (hs : l.Sorted (· ≤ ·)) (hne : l ≠ []) {a : ℝ}
    (ha : a ∈ l) : l.head hne ≤ a := by
  cases l with
  | nil => exact absurd rfl hne
  | cons b t =>
    rcases List.mem_cons.mp ha with h | h
    · simp [h]
    · exact (List.sorted_cons.mp hs).1 a h

theorem sorted_le_getLast {l : List ℝ} (hs : l.Sorted (· ≤ ·)) (hne : l ≠ []) {a : ℝ}
    (ha : a ∈ l) : a ≤ l.getLast hne := by
  induction l with
  | nil => exact absurd rfl hne
  | cons b t ih =>
    cases t with
    | nil =>
      simp only [List.mem_singleton] at ha
      simp [ha, List.getLast]
    | cons c t2 =>
      rw [List.getLast_cons (by simp)]
      rcases List.mem_cons.mp ha with h | h
      · subst h
        exact (List.sorted_cons.mp hs).1 _ (List.getLast_mem _)
      · exact ih (List.sorted_cons.mp hs).2 (by simp) h

theorem bisectLeft_split (A B : List ℝ) (q : ℝ) (hA : ∀ a ∈ A, a < q)
    (hB : ∀ b ∈ B, ¬ b < q) : bisectLeft (A ++ B) q = A.length := by
  unfold bisectLeft
  rw [List.countP_append,
    List.countP_eq_length.mpr (fun a ha => by simpa using hA a ha),
    List.countP_eq_zero.mpr (fun b hb => by simpa using hB b hb), Nat.add_zero]

theorem getD_append_cons (A C : List ℝ) (b d : ℝ) :
    (A ++ b :: C).getD A.length d = b := by
  rw [List.getD_eq_getElem?_getD, List.getElem?_append_right (le_refl _)]
  simp

theorem getD_append_cons_succ (A C : List ℝ) (b c d : ℝ) :
    (A ++ b :: c :: C).getD (A.length + 1) d = c := by
  have h : A ++ b :: c :: C = (A ++ [b]) ++ c :: C := by simp
  have h2 : A.length + 1 = (A ++ [b]).length := by simp
  rw [h, h2, getD_append_cons]

theorem mpe_eq_of_lookupExact (tabla : Table) (mass : ℝ) (clase : String) (v : ℝ)
    (h : lookupExact tabla mass clase = some v) : mpe_mg_para mass clase tabla = some v := by
  unfold mpe_mg_para
  rw [h]

theorem mpe_eq_branch (tabla : Table) (mass : ℝ) (clase : String)
    (h : lookupExact tabla mass clase = none) :
    mpe_mg_para mass clase tabla = mpeInterpBranch mass clase tabla := by
  unfold mpe_mg_para
  rw [h]

theorem interpolado_eq (tabla : Table) (mass x0 x1 : ℝ) (clase : String) (y0 y1 : ℝ)
    (h0 : lookupExact tabla x0 clase = some y0) (h1 : lookupExact tabla x1 clase = some y1) :
    interpolado tabla mass x0 x1 clase =
      some ((10 : ℝ) ^ (Real.logb 10 y0 +
        (Real.logb 10 mass - Real.logb 10 x0) / (Real.logb 10 x1 - Real.logb 10 x0) *
          (Real.logb 10 y1 - Real.logb 10 y0))) := by
  unfold interpolado
  rw [h0, h1]

theorem interpolado_none_right (tabla : Table) (mass x0 x1 : ℝ) (clase : String)
    (h : lookupExact tabla x1 clase = none) : interpolado tabla mass x0 x1 clase = none := by
  unfold interpolado
  rw [h]
  cases lookupExact tabla x0 clase <;> rfl

theorem lookupExact_none_of_absent (tabla : Table) (clase : String)
    (h : ∀ p ∈ tabla, rowLookup p.2 clase = none) (q : ℝ) :
    lookupExact tabla q clase = none := by
  unfold lookupExact
  cases hq : tableLookup tabla q with
  | none => rfl
  | some row =>
    obtain ⟨m, hm⟩ := row_mem_of_tableLookup tabla q row hq
    simpa using h (m, row) hm

theorem mpe_none_of_absent (tabla : Table) (clase : String)
    (h : ∀ p ∈ tabla, rowLookup p.2 clase = none) (mass : ℝ) :
    mpe_mg_para mass clase tabla = none := by
  rw [mpe_eq_branch _ _ _ (lookupExact_none_of_absent tabla clase h mass)]
  unfold mpeInterpBranch
  cases hh : (sortedKeys tabla).head? <;> cases hl : (sortedKeys tabla).getLast? <;>
    simp only [hh, hl]
  split_ifs with h1 h2
  · rfl
  · rfl
  · exact interpolado_none_right _ _ _ _ _ (lookupExact_none_of_absent tabla clase h _)

/-! ### Evaluation of the demo table -/

theorem tableLookup_ej_2000 :
    tableLookup MPE_TABLE_EXAMPLE_MG 2000 =
      some [("E2", 50), ("F1", 120), ("F2", 500), ("M1", 2500), ("M2", 7500), ("M3", 25000)] := by
  norm_num [MPE_TABLE_EXAMPLE_MG, tableLookup]

theorem mpe_ej_2000_E2 : mpe_mg_para 2000 "E2" MPE_TABLE_EXAMPLE_MG = some 50 :=
  mpe_eq_of_lookupExact _ _ _ _ (by unfold lookupExact; rw [tableLookup_ej_2000]; rfl)

theorem keys_ejemplo : MPE_TABLE_EXAMPLE_MG.map Prod.fst =
    [1, 2, 5, 10, 20, 50, 100, 200, 500, 1000, 2000, 5000, 10000, 20000, 50000] := rfl

theorem sortedKeys_ejemplo : sortedKeys MPE_TABLE_EXAMPLE_MG =
    [1, 2, 5, 10, 20, 50, 100, 200, 500, 1000, 2000, 5000, 10000, 20000, 50000] := by
  unfold sortedKeys
  rw [keys_ejemplo]
  refine List.Sorted.insertionSort_eq ?_
  simp only [List.sorted_cons, List.mem_cons, List.mem_singleton, List.not_mem_nil]
  norm_num

/-! ### Claim theorems -/

/-- C1 (counterexample): supplying both `umbral_std_g` and `umbral_mpe_mg`
simultaneously is not rejected: at mass 2000 g with both thresholds present the
call succeeds, using the MPE threshold and returning class E2. -/
theorem seleccion_ambos_umbrales_no_falla :
    seleccionar_clase_pesa 2000 (some (1 / 1000)) (some 60) none CLASSES_ORDER =
      Except.ok (some "E2") := by
  unfold seleccionar_clase_pesa
  rw [if_neg (by simp)]
  norm_num [scanClases, mpe_ej_2000_E2, CLASSES_ORDER, tablaEfectiva]

/-- C1 (amended): `seleccionar_clase_pesa` fails with the usage error exactly
when neither threshold basis is supplied; supplying both is accepted, the MPE
threshold taking precedence. -/
theorem seleccion_falla_sii_sin_umbral :
    ∀ (mass : ℝ) (u_std u_mpe : Option ℝ) (t : Option Table) (ord : List String),
      esError (seleccionar_clase_pesa mass u_std u_mpe t ord) = true ↔
        (u_std = none ∧ u_mpe = none) := by
  intro mass us um t ord
  unfold seleccionar_clase_pesa
  by_cases h : um = none ∧ us = none
  · rw [if_pos h]
    simp [esError, h.1, h.2]
  · rw [if_neg h]
    simp only [esError]
    constructor
    · intro hfalse
      exact absurd hfalse (by simp)
    · intro hc
      exact absurd ⟨hc.2, hc.1⟩ h

/-- C2 (counterexample): a strictly negative relative-uncertainty target is not
rejected: `masa_minima` with `r_rel = -1` returns normally (with a negative
mass) instead of failing. -/
theorem masa_minima_rrel_negativo_no_falla :
    esError (masa_minima (5 / 1000) (some (1 / 100)) (-1) 2 true) = false := by
  unfold masa_minima
  rw [if_neg (by norm_num)]
  rfl

/-- C2 (amended): `masa_minima` returns
`k * s_efectiva(s, d, incluir_resolucion) / r_rel` for every nonzero `r_rel`
(negative targets included, yielding a negative mass), and fails — Python's
`ZeroDivisionError` — exactly when `r_rel = 0`. -/
theorem masa_minima_caracterizacion :
    ∀ (s : ℝ) (d : Option ℝ) (r k : ℝ) (b : Bool),
      (r ≠ 0 → masa_minima s d r k b = Except.ok (k * s_efectiva s d b / r)) ∧
      (esError (masa_minima s d r k b) = true ↔ r = 0) := by
  intro s d r k b
  constructor
  · intro hr
    unfold masa_minima
    rw [if_neg hr]
  · unfold masa_minima
    by_cases hr : r = 0
    · rw [if_pos hr]
      simp [esError, hr]
    · rw [if_neg hr]
      simp [esError, hr]

/-- Witness for C2 (amended), at `s = 1`, `d` absent, `r_rel = 2`, `k = 3`. -/
theorem masa_minima_caracterizacion_witness :
    masa_minima 1 none 2 3 true = Except.ok (3 * s_efectiva 1 none true / 2) :=
  (masa_minima_caracterizacion 1 none 2 3 true).1 (by norm_num)

/-- C6: when the mass is a table key and the class is present in that row,
`mpe_mg_para` returns the stored value directly; in particular
`mpe_mg_para 2000 "F1"` on the demo table is exactly 120. -/
theorem mpe_coincidencia_exacta :
    (∀ (tabla : Table) (mass : ℝ) (clase : String) (row : Row) (v : ℝ),
        tableLookup tabla mass = some row → rowLookup row clase = some v →
        mpe_mg_para mass clase tabla = some v) ∧
      mpe_mg_para 2000 "F1" MPE_TABLE_EXAMPLE_MG = some 120 := by
  constructor
  · intro tabla mass clase row v h1 h2
    refine mpe_eq_of_lookupExact _ _ _ _ ?_
    unfold lookupExact
    rw [h1]
    simpa using h2
  · exact mpe_eq_of_lookupExact _ _ _ _ (by unfold lookupExact; rw [tableLookup_ej_2000]; rfl)

/-- Witness for C6, instantiating the general part at mass 2000 and class E2 of
the demo table. -/
theorem mpe_coincidencia_exacta_witness :
    mpe_mg_para 2000 "E2" MPE_TABLE_EXAMPLE_MG = some 50 :=
  mpe_coincidencia_exacta.1 MPE_TABLE_EXAMPLE_MG 2000 "E2" _ 50 tableLookup_ej_2000 rfl

/-- C8: class E1 has no value in any row of the demo table, and the absence is
kept distinct from zero throughout: `mpe_mg_para` answers "not available" for
E1 at every queried mass. -/
theorem mpe_E1_ausente : ∀ mass : ℝ, mpe_mg_para mass "E1" MPE_TABLE_EXAMPLE_MG = none := by
  intro mass
  refine mpe_none_of_absent _ _ ?_ mass
  intro p hp
  simp only [MPE_TABLE_EXAMPLE_MG, List.mem_cons, List.not_mem_nil, or_false] at hp
  rcases hp with h | h | h | h | h | h | h | h | h | h | h | h | h | h | h <;> subst h <;> rfl

/-- C9: an explicitly supplied empty table is falsy in Python, so
`seleccionar_clase_pesa` silently falls back to the built-in demo table: the
result always coincides with the one computed from `MPE_TABLE_EXAMPLE_MG`. -/
theorem seleccion_tabla_vacia_usa_ejemplo :
    ∀ (mass : ℝ) (u_std u_mpe : Option ℝ) (ord : List String),
      seleccionar_clase_pesa mass u_std u_mpe (some []) ord =
        seleccionar_clase_pesa mass u_std u_mpe (some MPE_TABLE_EXAMPLE_MG) ord := by
  intro mass us um ord
  unfold seleccionar_clase_pesa
  have h : tablaEfectiva (some ([] : Table)) = tablaEfectiva (some MPE_TABLE_EXAMPLE_MG) := by
    simp [tablaEfectiva, MPE_TABLE_EXAMPLE_MG]
  rw [h]

theorem sorted_nodup_strict {l : List ℝ} (hs : l.Sorted (· ≤ ·)) (hn : l.Nodup) :
    l.Pairwise (· < ·) :=
  (hs.and hn).imp fun h => lt_of_le_of_ne h.1 h.2

theorem mpe_none_fuera (tabla : Table) (mass : ℝ) (clase : String)
    (hne : sortedKeys tabla ≠ [])
    (hout : mass < (sortedKeys tabla).head hne ∨ (sortedKeys tabla).getLast hne < mass) :
    mpe_mg_para mass clase tabla = none := by
  have hnotmem : mass ∉ tabla.map Prod.fst := by
    intro hmem
    rw [← mem_sortedKeys] at hmem
    rcases hout with h | h
    · exact absurd (sorted_head_le (sortedKeys_sorted tabla) hne hmem) (not_le.mpr h)
    · exact absurd (sorted_le_getLast (sortedKeys_sorted tabla) hne hmem) (not_le.mpr h)
  have hme : lookupExact tabla mass clase = none := by
    unfold lookupExact
    rw [tableLookup_eq_none tabla mass hnotmem]
    rfl
  rw [mpe_eq_branch _ _ _ hme]
  unfold mpeInterpBranch
  have hh : (sortedKeys tabla).head? = some ((sortedKeys tabla).head hne) :=
    List.head?_eq_head hne
  have hl : (sortedKeys tabla).getLast? = some ((sortedKeys tabla).getLast hne) :=
    List.getLast?_eq_getLast _ hne
  simp only [hh, hl]
  rw [if_pos hout]

/-- C5: a query outside the closed range of the table keys (below the smallest
key — the head of the ascending key list — or above the largest — its last
element) yields "not available" for every class: no extrapolation; in
particular mass 100000 g, above the demo table's maximum key 50000, gives
`none` for every class. -/
theorem mpe_fuera_de_rango :
    (∀ (tabla : Table) (mass : ℝ) (clase : String),
        ((∃ lo, (sortedKeys tabla).head? = some lo ∧ mass < lo) ∨
         (∃ hi, (sortedKeys tabla).getLast? = some hi ∧ hi < mass)) →
        mpe_mg_para mass clase tabla = none) ∧
      ∀ clase, mpe_mg_para 100000 clase MPE_TABLE_EXAMPLE_MG = none := by
  have hgen : ∀ (tabla : Table) (mass : ℝ) (clase : String),
      ((∃ lo, (sortedKeys tabla).head? = some lo ∧ mass < lo) ∨
       (∃ hi, (sortedKeys tabla).getLast? = some hi ∧ hi < mass)) →
      mpe_mg_para mass clase tabla = none := by
    intro tabla mass clase h
    rcases h with ⟨lo, hlo, hml⟩ | ⟨hi, hhi, hmh⟩
    · have hne : sortedKeys tabla ≠ [] := by
        intro hnil
        rw [hnil] at hlo
        exact Option.noConfusion hlo
      rw [List.head?_eq_head hne] at hlo
      exact mpe_none_fuera tabla mass clase hne (Or.inl ((Option.some.inj hlo) ▸ hml))
    · have hne : sortedKeys tabla ≠ [] := by
        intro hnil
        rw [hnil] at hhi
        exact Option.noConfusion hhi
      rw [List.getLast?_eq_getLast _ hne] at hhi
      exact mpe_none_fuera tabla mass clase hne (Or.inr ((Option.some.inj hhi) ▸ hmh))
  refine ⟨hgen, fun clase => hgen MPE_TABLE_EXAMPLE_MG 100000 clase
    (Or.inr ⟨50000, ?_, by norm_num⟩)⟩
  rw [sortedKeys_ejemplo]
  rfl

/-- Witness for C5, at mass 100000 g and class E2 of the demo table. -/
theorem mpe_fuera_de_rango_witness :
    mpe_mg_para 100000 "E2" MPE_TABLE_EXAMPLE_MG = none :=
  mpe_fuera_de_rango.1 MPE_TABLE_EXAMPLE_MG 100000 "E2"
    (Or.inr ⟨50000, by rw [sortedKeys_ejemplo]; rfl, by norm_num⟩)

theorem mpe_none_clase_ausente (tabla : Table) (mass : ℝ) (clase : String)
    (hnd : (tabla.map Prod.fst).Nodup)
    (hmem : mass ∈ tabla.map Prod.fst)
    (habs : ∀ row, tableLookup tabla mass = some row → rowLookup row clase = none) :
    mpe_mg_para mass clase tabla = none := by
  have hme : lookupExact tabla mass clase = none := by
    unfold lookupExact
    obtain ⟨row, hrow⟩ := tableLookup_isSome_of_mem tabla mass hmem
    rw [hrow]
    simpa using habs row hrow
  rw [mpe_eq_branch _ _ _ hme]
  have hmemx : mass ∈ sortedKeys tabla := (mem_sortedKeys tabla mass).mpr hmem
  obtain ⟨A, C, hAC⟩ := List.append_of_mem hmemx
  have hs := sortedKeys_sorted tabla
  have hn : (sortedKeys tabla).Nodup := (sortedKeys_perm tabla).nodup_iff.mpr hnd
  have hstrict : (sortedKeys tabla).Pairwise (· < ·) := sorted_nodup_strict hs hn
  rw [hAC] at hstrict
  have hpa := List.pairwise_append.mp hstrict
  have hA : ∀ a ∈ A, a < mass := fun a ha => hpa.2.2 a ha mass (List.mem_cons_self _ _)
  have hC : ∀ b ∈ mass :: C, ¬ b < mass := by
    intro b hb
    rcases List.mem_cons.mp hb with h | h
    · simp [h]
    · exact not_lt.mpr (le_of_lt ((List.pairwise_cons.mp hpa.2.1).1 b h))
  unfold mpeInterpBranch
  have hne : sortedKeys tabla ≠ [] := by
    rw [hAC]
    simp
  have hh : (sortedKeys tabla).head? = some ((sortedKeys tabla).head hne) :=
    List.head?_eq_head hne
  have hl : (sortedKeys tabla).getLast? = some ((sortedKeys tabla).getLast hne) :=
    List.getLast?_eq_getLast _ hne
  simp only [hh, hl]
  have hheadle : (sortedKeys tabla).head hne ≤ mass := sorted_head_le hs hne hmemx
  have hlastge : mass ≤ (sortedKeys tabla).getLast hne := sorted_le_getLast hs hne hmemx
  rw [if_neg (by push_neg; exact ⟨hheadle, hlastge⟩)]
  have hbis : bisectLeft (sortedKeys tabla) mass = A.length := by
    rw [hAC]
    exact bisectLeft_split A (mass :: C) mass hA hC
  rw [hbis]
  by_cases h0 : A.length = 0
  · rw [if_pos (Or.inl h0)]
  · have hlen : A.length ≠ (sortedKeys tabla).length := by
      rw [hAC]
      simp only [List.length_append, List.length_cons]
      omega
    rw [if_neg (by push_neg; exact ⟨h0, hlen⟩)]
    have hgd : (sortedKeys tabla).getD A.length 0 = mass := by
      rw [hAC]
      exact getD_append_cons A C mass 0
    rw [hgd]
    exact interpolado_none_right _ _ _ _ _ hme

/-- C10: when the queried mass is exactly a table key whose row lacks the
requested class, `mpe_mg_para` answers "not available" and never interpolates
across the tabulated key, even when both neighbouring rows do contain the
class; the two closed instances exercise an interior key (mass 2 between
F1-carrying keys 1 and 4) and the smallest key (mass 1 with F1 present at keys
2 and 4). -/
theorem mpe_sin_interpolacion_en_clave :
    (∀ (tabla : Table) (mass : ℝ) (clase : String),
        (tabla.map Prod.fst).Nodup →
        mass ∈ tabla.map Prod.fst →
        (∀ row, tableLookup tabla mass = some row → rowLookup row clase = none) →
        mpe_mg_para mass clase tabla = none) ∧
      mpe_mg_para 2 "F1"
        [(1, [("F1", 3), ("F2", 7)]), (2, [("F2", 9)]), (4, [("F1", 5)])] = none ∧
      mpe_mg_para 1 "F1"
        [(1, [("F2", 7)]), (2, [("F1", 3)]), (4, [("F1", 5)])] = none := by
  refine ⟨fun tabla mass clase => mpe_none_clase_ausente tabla mass clase, ?_, ?_⟩
  · refine mpe_none_clase_ausente _ 2 "F1" (by norm_num) (by norm_num) ?_
    intro row h
    have ht : tableLookup
        [((1:ℝ), [("F1", (3:ℝ)), ("F2", 7)]), (2, [("F2", 9)]), (4, [("F1", 5)])] 2 =
        some [("F2", 9)] := by
      norm_num [tableLookup]
    rw [ht] at h
    injection h with h
    subst h
    rfl
  · refine mpe_none_clase_ausente _ 1 "F1" (by norm_num) (by norm_num) ?_
    intro row h
    have ht : tableLookup
        [((1:ℝ), [("F2", (7:ℝ))]), (2, [("F1", 3)]), (4, [("F1", 5)])] 1 =
        some [("F2", 7)] := by
      norm_num [tableLookup]
    rw [ht] at h
    injection h with h
    subst h
    rfl

/-- Witness for C10, instantiating the general part at the smallest key of the
second test table. -/
theorem mpe_sin_interpolacion_en_clave_witness :
    mpe_mg_para 1 "F1" [(1, [("F2", 7)]), (2, [("F1", 3)]), (4, [("F1", 5)])] = none := by
  refine mpe_sin_interpolacion_en_clave.1 _ 1 "F1" (by norm_num) (by norm_num) ?_
  intro row h
  have ht : tableLookup
      [((1:ℝ), [("F2", (7:ℝ))]), (2, [("F1", 3)]), (4, [("F1", 5)])] 1 =
      some [("F2", 7)] := by
    norm_num [tableLookup]
  rw [ht] at h
  injection h with h
  subst h
  rfl

/-- C7: with the resolution term included, the minimum mass
`k * sqrt(s² + (d/√12)²) / r_rel` is strictly increasing in `s`, `d` and `k`
and strictly decreasing in `r_rel`, on the domain s > 0, d ≥ 0, r_rel > 0,
k > 0. -/
theorem masa_minima_monotonia :
    ∀ s s2 d d2 r r2 k k2 : ℝ, 0 < s → 0 ≤ d → 0 < r → 0 < k →
      ((s < s2 →
          valorOk (masa_minima s (some d) r k true) <
            valorOk (masa_minima s2 (some d) r k true)) ∧
       (d < d2 →
          valorOk (masa_minima s (some d) r k true) <
            valorOk (masa_minima s (some d2) r k true)) ∧
       (k < k2 →
          valorOk (masa_minima s (some d) r k true) <
            valorOk (masa_minima s (some d) r k2 true)) ∧
       (r < r2 →
          valorOk (masa_minima s (some d) r2 k true) <
            valorOk (masa_minima s (some d) r k true))) := by
  intro s s2 d d2 r r2 k k2 hs hd hr hk
  have hsq12 : (0 : ℝ) < Real.sqrt 12 := Real.sqrt_pos.mpr (by norm_num)
  have hval : ∀ s' d' r' k' : ℝ, r' ≠ 0 →
      valorOk (masa_minima s' (some d') r' k' true) =
        k' * Real.sqrt (s' ^ 2 + (d' / Real.sqrt 12) ^ 2) / r' := by
    intro s' d' r' k' hr'
    unfold masa_minima
    rw [if_neg hr']
    rfl
  refine ⟨?_, ?_, ?_, ?_⟩
  · intro hss
    rw [hval s d r k (ne_of_gt hr), hval s2 d r k (ne_of_gt hr),
      div_lt_div_iff_of_pos_right hr]
    exact (mul_lt_mul_left hk).mpr
      (Real.sqrt_lt_sqrt (by positivity) (by nlinarith))
  · intro hdd
    rw [hval s d r k (ne_of_gt hr), hval s d2 r k (ne_of_gt hr),
      div_lt_div_iff_of_pos_right hr]
    refine (mul_lt_mul_left hk).mpr (Real.sqrt_lt_sqrt (by positivity) ?_)
    have hdiv : d / Real.sqrt 12 < d2 / Real.sqrt 12 := (div_lt_div_iff_of_pos_right hsq12).mpr hdd
    have hdiv0 : 0 ≤ d / Real.sqrt 12 := div_nonneg hd (le_of_lt hsq12)
    nlinarith
  · intro hkk
    rw [hval s d r k (ne_of_gt hr), hval s d r k2 (ne_of_gt hr),
      div_lt_div_iff_of_pos_right hr]
    have hsqpos : 0 < Real.sqrt (s ^ 2 + (d / Real.sqrt 12) ^ 2) :=
      Real.sqrt_pos.mpr (by nlinarith [pow_pos hs 2, sq_nonneg (d / Real.sqrt 12)])
    exact (mul_lt_mul_right hsqpos).mpr hkk
  · intro hrr
    rw [hval s d r k (ne_of_gt hr), hval s d r2 k (ne_of_gt (lt_trans hr hrr))]
    have hsqpos : 0 < Real.sqrt (s ^ 2 + (d / Real.sqrt 12) ^ 2) :=
      Real.sqrt_pos.mpr (by nlinarith [pow_pos hs 2, sq_nonneg (d / Real.sqrt 12)])
    exact div_lt_div_of_pos_left (mul_pos hk hsqpos) hr hrr

/-- Witness for C7: strict growth in `s` at `s = 1 < 2`, `d = 1`, `r_rel = 1`,
`k = 1`. -/
theorem masa_minima_monotonia_witness :
    valorOk (masa_minima 1 (some 1) 1 1 true) < valorOk (masa_minima 2 (some 1) 1 1 true) :=
  (masa_minima_monotonia 1 2 1 2 1 2 1 2 (by norm_num) (by norm_num) (by norm_num)
    (by norm_num)).1 (by norm_num)

theorem scan_eq_find (mass : ℝ) (u_std u_mpe : Option ℝ) (tabla : Table) :
    ∀ ord : List String,
      scanClases mass u_std u_mpe tabla ord =
        ord.find? fun c =>
          decide (∃ m, mpe_mg_para mass c tabla = some m ∧ cumpleUmbral u_std u_mpe m) := by
  intro ord
  induction ord with
  | nil => rfl
  | cons c rest ih =>
    cases hm : mpe_mg_para mass c tabla with
    | none =>
      rw [List.find?_cons_of_neg _ (by
        simp only [decide_eq_true_eq]
        rintro ⟨m, hm2, _⟩
        rw [hm] at hm2
        exact Option.noConfusion hm2)]
      simp only [scanClases, hm]
      exact ih
    | some mpe =>
      cases hum : u_mpe with
      | some u =>
        rw [hum] at ih
        simp only [scanClases, hm]
        by_cases hle : mpe ≤ u
        · rw [if_pos hle, List.find?_cons_of_pos _ (by
            simp only [decide_eq_true_eq]
            exact ⟨mpe, hm, hle⟩)]
        · rw [if_neg hle, List.find?_cons_of_neg _ (by
            simp only [decide_eq_true_eq]
            rintro ⟨m, hm2, hcm⟩
            rw [hm] at hm2
            injection hm2 with hm2
            subst hm2
            exact hle hcm)]
          exact ih
      | none =>
        cases hus : u_std with
        | some u =>
          rw [hum, hus] at ih
          simp only [scanClases, hm]
          by_cases hle : mpe / 1000 / Real.sqrt 3 ≤ u
          · rw [if_pos hle, List.find?_cons_of_pos _ (by
              simp only [decide_eq_true_eq]
              exact ⟨mpe, hm, hle⟩)]
          · rw [if_neg hle, List.find?_cons_of_neg _ (by
              simp only [decide_eq_true_eq]
              rintro ⟨m, hm2, hcm⟩
              rw [hm] at hm2
              injection hm2 with hm2
              subst hm2
              exact hle hcm)]
            exact ih
        | none =>
          simp only [scanClases, hm]
          rw [eq_comm, List.find?_eq_none]
          intro x _
          simp only [decide_eq_true_eq]
          rintro ⟨m, _, hcm⟩
          exact hcm

/-- C3: with a supplied threshold and a nonempty table, `seleccionar_clase_pesa`
returns `List.find?` of the qualification predicate over the class order: the
scan goes loosest to tightest, a class whose `mpe_mg_para` is "not available"
simply does not qualify and the scan continues past it, the first class whose
MPE satisfies the threshold (`mpe ≤ umbral_mpe_mg`, or
`mpe/1000/sqrt 3 ≤ umbral_std_g` on the standard-uncertainty basis) is
returned, and `none` ("no class qualifies") results exactly when no class in
the order qualifies; in particular on the demo table at mass 2000 g with
`umbral_mpe_mg = 60` the answer is E2. -/
theorem seleccion_primera_clase :
    (∀ (mass : ℝ) (u_std u_mpe : Option ℝ) (tabla : Table) (ord : List String),
        ¬(u_std = none ∧ u_mpe = none) → tabla ≠ [] →
        seleccionar_clase_pesa mass u_std u_mpe (some tabla) ord =
          Except.ok (ord.find? fun c =>
            decide (∃ m, mpe_mg_para mass c tabla = some m ∧
              cumpleUmbral u_std u_mpe m))) ∧
      seleccionar_clase_pesa 2000 none (some 60) none CLASSES_ORDER =
        Except.ok (some "E2") := by
  constructor
  · intro mass us um tabla ord h1 h2
    unfold seleccionar_clase_pesa
    rw [if_neg fun hc => h1 ⟨hc.2, hc.1⟩]
    have ht : tablaEfectiva (some tabla) = tabla := by
      show (if tabla = [] then MPE_TABLE_EXAMPLE_MG else tabla) = tabla
      rw [if_neg h2]
    rw [ht, scan_eq_find mass us um tabla ord]
  · unfold seleccionar_clase_pesa
    rw [if_neg (by simp)]
    have ht : tablaEfectiva none = MPE_TABLE_EXAMPLE_MG := rfl
    rw [ht]
    norm_num [scanClases, mpe_ej_2000_E2, CLASSES_ORDER]

/-- Witness for C3, instantiating the characterization at mass 2000 g with the
MPE threshold 60 mg over the demo table. -/
theorem seleccion_primera_clase_witness :
    seleccionar_clase_pesa 2000 none (some 60) (some MPE_TABLE_EXAMPLE_MG) CLASSES_ORDER =
      Except.ok (CLASSES_ORDER.find? fun c =>
        decide (∃ m, mpe_mg_para 2000 c MPE_TABLE_EXAMPLE_MG = some m ∧
          cumpleUmbral none (some 60) m)) :=
  seleccion_primera_clase.1 2000 none (some 60) MPE_TABLE_EXAMPLE_MG CLASSES_ORDER
    (by simp) (by simp [MPE_TABLE_EXAMPLE_MG])

theorem tableLookup_ej_1000 :
    tableLookup MPE_TABLE_EXAMPLE_MG 1000 =
      some [("E2", 30), ("F1", 80), ("F2", 300), ("M1", 1500), ("M2", 4500), ("M3", 15000)] := by
  norm_num [MPE_TABLE_EXAMPLE_MG, tableLookup]

theorem mpe_interp_general (tabla : Table) (mass x0 x1 : ℝ) (clase : String) (y0 y1 : ℝ)
    (l1 l2 : List ℝ)
    (hsk : sortedKeys tabla = l1 ++ x0 :: x1 :: l2)
    (h0 : x0 < mass) (h1 : mass < x1)
    (hy0 : lookupExact tabla x0 clase = some y0)
    (hy1 : lookupExact tabla x1 clase = some y1) :
    mpe_mg_para mass clase tabla =
      some ((10 : ℝ) ^ (Real.logb 10 y0 +
        (Real.logb 10 mass - Real.logb 10 x0) / (Real.logb 10 x1 - Real.logb 10 x0) *
          (Real.logb 10 y1 - Real.logb 10 y0))) := by
  have hs := sortedKeys_sorted tabla
  have hs2 := hs
  rw [hsk] at hs2
  have hpa := List.pairwise_append.mp hs2
  have hx1le : ∀ b ∈ l2, x1 ≤ b :=
    (List.pairwise_cons.mp (List.pairwise_cons.mp hpa.2.1).2).1
  have hl1lt : ∀ a ∈ l1, a < mass := fun a ha =>
    lt_of_le_of_lt (hpa.2.2 a ha x0 (List.mem_cons_self _ _)) h0
  have hBge : ∀ b ∈ x1 :: l2, ¬ b < mass := by
    intro b hb
    rcases List.mem_cons.mp hb with h | h
    · subst h
      exact not_lt.mpr (le_of_lt h1)
    · exact not_lt.mpr (le_of_lt (lt_of_lt_of_le h1 (hx1le b h)))
  have hnotmem : mass ∉ tabla.map Prod.fst := by
    intro hmem
    have hmx : mass ∈ l1 ++ x0 :: x1 :: l2 := by
      rw [← hsk]
      exact (mem_sortedKeys tabla mass).mpr hmem
    rcases List.mem_append.mp hmx with h | h
    · exact lt_irrefl mass (hl1lt mass h)
    · rcases List.mem_cons.mp h with h | h
      · rw [h] at h0
        exact lt_irrefl _ h0
      · rcases List.mem_cons.mp h with h | h
        · rw [h] at h1
          exact lt_irrefl _ h1
        · exact absurd (hx1le mass h) (not_le.mpr h1)
  have hme : lookupExact tabla mass clase = none := by
    unfold lookupExact
    rw [tableLookup_eq_none tabla mass hnotmem]
    rfl
  rw [mpe_eq_branch _ _ _ hme]
  unfold mpeInterpBranch
  have hne : sortedKeys tabla ≠ [] := by
    rw [hsk]
    simp
  have hh : (sortedKeys tabla).head? = some ((sortedKeys tabla).head hne) :=
    List.head?_eq_head hne
  have hl : (sortedKeys tabla).getLast? = some ((sortedKeys tabla).getLast hne) :=
    List.getLast?_eq_getLast _ hne
  simp only [hh, hl]
  have hx0mem : x0 ∈ sortedKeys tabla := by
    rw [hsk]
    simp
  have hx1mem : x1 ∈ sortedKeys tabla := by
    rw [hsk]
    simp
  have hheadle : (sortedKeys tabla).head hne ≤ x0 := sorted_head_le hs hne hx0mem
  have hlastge : x1 ≤ (sortedKeys tabla).getLast hne := sorted_le_getLast hs hne hx1mem
  rw [if_neg (by push_neg; constructor <;> linarith)]
  have hA : ∀ a ∈ l1 ++ [x0], a < mass := by
    intro a ha
    rcases List.mem_append.mp ha with h | h
    · exact hl1lt a h
    · rw [List.mem_singleton] at h
      rw [h]
      exact h0
  have hbis : bisectLeft (sortedKeys tabla) mass = l1.length + 1 := by
    have hsk2 : sortedKeys tabla = (l1 ++ [x0]) ++ x1 :: l2 := by
      rw [hsk]
      simp
    rw [hsk2, bisectLeft_split (l1 ++ [x0]) (x1 :: l2) mass hA hBge]
    simp
  rw [hbis]
  have hlen : l1.length + 1 ≠ (sortedKeys tabla).length := by
    rw [hsk]
    simp only [List.length_append, List.length_cons]
    omega
  rw [if_neg (by push_neg; exact ⟨Nat.succ_ne_zero _, hlen⟩)]
  have hg0 : (sortedKeys tabla).getD (l1.length + 1 - 1) 0 = x0 := by
    simp only [Nat.add_sub_cancel]
    rw [hsk]
    exact getD_append_cons l1 (x1 :: l2) x0 0
  have hg1 : (sortedKeys tabla).getD (l1.length + 1) 0 = x1 := by
    rw [hsk]
    exact getD_append_cons_succ l1 l2 x0 x1 0
  rw [hg0, hg1]
  exact interpolado_eq tabla mass x0 x1 clase y0 y1 hy0 hy1

/-- C4: for a mass strictly between two consecutive table keys whose rows carry
the class, `mpe_mg_para` returns the log-log interpolant
`10 ^ (log10 y0 + t * (log10 y1 - log10 y0))` with
`t = (log10 mass - log10 x0) / (log10 x1 - log10 x0)`; in particular on the
demo table at mass 1414.21 g between the F1 entries 80 mg (at 1000) and 120 mg
(at 2000) the result lies strictly between 80 and 120, is not the arithmetic
mean 100, and lies closer to the log-log-weighted point 97.98 (the value at the
geometric mean) than to 100. -/
theorem mpe_interpolacion_loglog :
    (∀ (tabla : Table) (mass x0 x1 : ℝ) (clase : String) (y0 y1 : ℝ) (l1 l2 : List ℝ),
        sortedKeys tabla = l1 ++ x0 :: x1 :: l2 →
        x0 < mass → mass < x1 →
        lookupExact tabla x0 clase = some y0 →
        lookupExact tabla x1 clase = some y1 →
        mpe_mg_para mass clase tabla =
          some ((10 : ℝ) ^ (Real.logb 10 y0 +
            (Real.logb 10 mass - Real.logb 10 x0) / (Real.logb 10 x1 - Real.logb 10 x0) *
              (Real.logb 10 y1 - Real.logb 10 y0)))) ∧
      ∃ r : ℝ, mpe_mg_para 1414.21 "F1" MPE_TABLE_EXAMPLE_MG = some r ∧
        80 < r ∧ r < 120 ∧ r ≠ 100 ∧ |r - 97.98| < |r - 100| := by
  refine ⟨mpe_interp_general, ?_⟩
  have heval : mpe_mg_para 1414.21 "F1" MPE_TABLE_EXAMPLE_MG =
      some ((10 : ℝ) ^ (Real.logb 10 80 +
        (Real.logb 10 1414.21 - Real.logb 10 1000) / (Real.logb 10 2000 - Real.logb 10 1000) *
          (Real.logb 10 120 - Real.logb 10 80))) := by
    refine mpe_interp_general MPE_TABLE_EXAMPLE_MG 1414.21 1000 2000 "F1" 80 120
      [1, 2, 5, 10, 20, 50, 100, 200, 500] [5000, 10000, 20000, 50000] ?_ (by norm_num)
      (by norm_num) ?_ ?_
    · rw [sortedKeys_ejemplo]
      rfl
    · unfold lookupExact
      rw [tableLookup_ej_1000]
      rfl
    · unfold lookupExact
      rw [tableLookup_ej_2000]
      rfl
  set t : ℝ :=
    (Real.logb 10 1414.21 - Real.logb 10 1000) / (Real.logb 10 2000 - Real.logb 10 1000)
    with hT
  have hlog2pos : 0 < Real.log 2 := Real.log_pos (by norm_num)
  have hlog10pos : 0 < Real.log 10 := Real.log_pos (by norm_num)
  have hnum : Real.log 1414.21 - Real.log 1000 = Real.log 1.41421 := by
    rw [← Real.log_div (by norm_num) (by norm_num)]
    norm_num
  have hden : Real.log 2000 - Real.log 1000 = Real.log 2 := by
    rw [← Real.log_div (by norm_num) (by norm_num)]
    norm_num
  have htlog : t = Real.log 1.41421 / Real.log 2 := by
    rw [hT]
    simp only [Real.logb, div_sub_div_same]
    rw [hnum, hden]
    field_simp
  have hE : (10 : ℝ) ^ (Real.logb 10 80 + t * (Real.logb 10 120 - Real.logb 10 80)) =
      80 * (1.5 : ℝ) ^ t := by
    rw [Real.rpow_add (by norm_num : (0 : ℝ) < 10),
      Real.rpow_logb (by norm_num) (by norm_num) (by norm_num)]
    congr 1
    rw [← Real.logb_div (by norm_num) (by norm_num),
      show (120 : ℝ) / 80 = 1.5 by norm_num, mul_comm,
      Real.rpow_mul (by norm_num : (0 : ℝ) ≤ 10),
      Real.rpow_logb (by norm_num) (by norm_num) (by norm_num)]
  have ht0 : 0 < t := by
    rw [htlog]
    exact div_pos (Real.log_pos (by norm_num)) hlog2pos
  have hthalf : t < 1 / 2 := by
    rw [htlog, div_lt_iff₀ hlog2pos]
    have hsq : Real.log (1.41421 ^ (2 : ℕ)) < Real.log 2 := by
      rw [Real.log_lt_log_iff (by positivity) (by norm_num)]
      norm_num
    rw [Real.log_pow] at hsq
    push_cast at hsq
    linarith
  have hb1 : (1 : ℝ) < 1.5 ^ t := by
    have h := (Real.rpow_lt_rpow_left_iff (by norm_num : (1 : ℝ) < 1.5)).mpr ht0
    rwa [Real.rpow_zero] at h
  have hb2 : (1.5 : ℝ) ^ t < 1.5 ^ ((1 : ℝ) / 2) :=
    (Real.rpow_lt_rpow_left_iff (by norm_num)).mpr hthalf
  have hb3 : (1.5 : ℝ) ^ ((1 : ℝ) / 2) < 98.99 / 80 := by
    rw [← Real.sqrt_eq_rpow, Real.sqrt_lt' (by norm_num)]
    norm_num
  rw [hE] at heval
  have h80 : (80 : ℝ) < 80 * 1.5 ^ t := by nlinarith
  have h9899 : (80 : ℝ) * 1.5 ^ t < 98.99 := by nlinarith
  refine ⟨80 * 1.5 ^ t, heval, h80, by linarith, ne_of_lt (by linarith), ?_⟩
  rcases le_or_lt (97.98 : ℝ) (80 * 1.5 ^ t) with h | h
  · rw [abs_of_nonneg (by linarith), abs_of_nonpos (by linarith)]
    linarith
  · rw [abs_of_neg (by linarith), abs_of_nonpos (by linarith)]
    linarith

/-- Witness for C4, exhibiting the interpolation formula at mass 1414.21 g for
class F1 of the demo table, between the keys 1000 and 2000. -/
theorem mpe_interpolacion_loglog_witness :
    mpe_mg_para 1414.21 "F1" MPE_TABLE_EXAMPLE_MG =
      some ((10 : ℝ) ^ (Real.logb 10 80 +
        (Real.logb 10 1414.21 - Real.logb 10 1000) / (Real.logb 10 2000 - Real.logb 10 1000) *
          (Real.logb 10 120 - Real.logb 10 80))) :=
  mpe_interpolacion_loglog.1 MPE_TABLE_EXAMPLE_MG 1414.21 1000 2000 "F1" 80 120
    [1, 2, 5, 10, 20, 50, 100, 200, 500] [5000, 10000, 20000, 50000]
    (by rw [sortedKeys_ejemplo]; rfl) (by norm_num) (by norm_num)
    (by unfold lookupExact; rw [tableLookup_ej_1000]; rfl)
    (by unfold lookupExact; rw [tableLookup_ej_2000]; rfl)

end Pesas
